import Mathlib

/-!
Shallow embedding of `artifact_store/store.py` (the `ArtifactStore` class) and
of the pieces of the Python standard library it calls (`os.path` in its POSIX
variant, `str.lstrip` / `str.rstrip` / `str.split`).  Paths are `String`s; all
string operations are implemented over the underlying `List Char`.  The host is
modelled as POSIX (`os.sep = "/"`, `os.path = posixpath`), matching the
environment the repository is developed and tested on.

The S3 client (`awswrangler` / `botocore`) is out of scope of the repository
and is treated as a black box: its availability, the stored objects and the
failure mode of a listing call are components of an explicit environment
`Env`, and the tabular/YAML codecs (`pandas.read_csv`, `yaml.safe_load`) are
function parameters.
-/

/-- Python `s.startswith(q)`. -/
def startswith (s q : String) : Bool := q.data.isPrefixOf s.data

/-- Python `s.endswith(q)`. -/
def endswith (s q : String) : Bool := q.data.isSuffixOf s.data

/-- Python `s.lstrip(chars)` on the character data, with the stripped set
given as a Boolean predicate. -/
def lstripP (p : Char → Bool) (l : List Char) : List Char := l.dropWhile p

/-- Python `s.rstrip(chars)` on the character data. -/
def rstripP (p : Char → Bool) (l : List Char) : List Char :=
  (l.reverse.dropWhile p).reverse

/-- The character set `"/"` of `rstrip("/")` / `lstrip("/")`. -/
def isSlash (c : Char) : Bool := c == '/'

/-- The character set `"/\\"` of `rstrip("/\\")`. -/
def isSlashOrBackslash (c : Char) : Bool := c == '/' || c == '\\'

/-- `posixpath.isabs`. -/
def isabs (p : String) : Bool := startswith p "/"

/-- `posixpath.join` restricted to two arguments, as used by
`os.path.join(self._base_path, relative_path)`. -/
def joinPosix (a b : String) : String :=
  if startswith b "/" then b
  else if a = "" ∨ endswith a "/" then a ++ b
  else a ++ "/" ++ b

/-- The number of initial slashes kept by `posixpath.normpath` (one or two;
three or more collapse to one). -/
def initialSlashCount (p : String) : Nat :=
  if startswith p "//" ∧ ¬ startswith p "///" then 2
  else if startswith p "/" then 1 else 0

/-- One step of the component loop of `posixpath.normpath`. -/
def normStep (initialSlashes : Bool) (acc : List (List Char)) (comp : List Char) :
    List (List Char) :=
  if comp = [] ∨ comp = ['.'] then acc
  else if comp ≠ ['.', '.'] ∨ (initialSlashes = false ∧ acc = []) ∨
      (acc ≠ [] ∧ acc.getLast? = some ['.', '.']) then acc ++ [comp]
  else acc.dropLast

/-- `posixpath.normpath`. -/
def normpath (p : String) : String :=
  if p = "" then "."
  else
    let k := initialSlashCount p
    let comps := (p.data.splitOn '/').foldl (normStep (decide (0 < k))) []
    let res := List.replicate k '/' ++ List.intercalate ['/'] comps
    if res = [] then "." else ⟨res⟩

/-- `posixpath.abspath`, with the process working directory passed explicitly. -/
def abspath (cwd p : String) : String :=
  normpath (if isabs p then p else joinPosix cwd p)

/-- `posixpath.split`: cut at the last slash; the head keeps its trailing
slashes only when it consists of nothing else. -/
def splitPosix (p : String) : String × String :=
  let rev := p.data.reverse
  let tailPart := (rev.takeWhile (· != '/')).reverse
  let headPart := (rev.dropWhile (· != '/')).reverse
  let headPart :=
    if headPart ≠ [] ∧ headPart.any (· != '/') then rstripP isSlash headPart
    else headPart
  (⟨headPart⟩, ⟨tailPart⟩)

/-- `posixpath.dirname`. -/
def dirname (p : String) : String := (splitPosix p).1

/-- `posixpath.basename`. -/
def basename (p : String) : String := (splitPosix p).2

/-- The state of an `ArtifactStore` (`store.py` lines 88-96): the normalized
base path and the backend flag, both set once in `__init__` and exposed only
through read-only properties, so the structure is immutable by construction. -/
structure ArtifactStore where
  base_path : String
  is_s3 : Bool
deriving DecidableEq, Repr

/-- `ArtifactStore.__init__` (lines 88-96).  `os.getcwd()` is passed
explicitly as `cwd`.  The function is total: the Python body contains no
operation that can raise, for any input path. -/
def ArtifactStore.init (cwd path : String) : ArtifactStore :=
  if startswith path "s3://" then
    { base_path := ⟨rstripP isSlash path.data⟩, is_s3 := true }
  else if isabs path then
    { base_path := ⟨rstripP isSlashOrBackslash path.data⟩, is_s3 := false }
  else
    { base_path := abspath cwd path, is_s3 := false }

/-- `ArtifactStore.full_path` (lines 142-169). -/
def ArtifactStore.full_path (s : ArtifactStore) (relative_path : String) : String :=
  if relative_path = "" then s.base_path
  else if s.is_s3 then s.base_path ++ "/" ++ ⟨lstripP isSlash relative_path.data⟩
  else joinPosix s.base_path ⟨lstripP isSlash relative_path.data⟩

/-- `ArtifactStore.from_file_path` (lines 120-140). -/
def ArtifactStore.from_file_path (cwd full : String) : ArtifactStore × String :=
  if startswith full "s3://" then
    let parts := full.data.splitOn '/'
    let bp : String := ⟨List.intercalate ['/'] parts.dropLast⟩
    let filename : String := ⟨(parts.getLast?).getD []⟩
    (ArtifactStore.init cwd bp, filename)
  else
    let bp := if dirname full = "" then "." else dirname full
    (ArtifactStore.init cwd bp, basename full)

/-- Error outcomes of the embedded operations: `MissingDependencyError` from
`_get_awswrangler`, `FileNotFoundError` (and the client's missing-object
error), `StorageError`, and an uncaught exception escaping a client call. -/
inductive Err where
  | missingDependency
  | notFound
  | storage
  | clientFault
deriving DecidableEq, Repr

/-- Failure modes of the S3 client's listing call: a
`botocore.exceptions.ClientError`, or any other exception. -/
inductive S3Fault where
  | clientError
  | otherError
deriving DecidableEq, Repr

/-- File/object contents as raw bytes. -/
abbrev Bytes := List Nat

/-- The storage environment an `ArtifactStore` operates against: whether the
optional `awswrangler`/`boto3` dependency is importable, the objects in the
object store, an injected failure mode per listing path for the black-box
client, the regular files of the local filesystem (full path to content), and
the existing local directories. -/
structure Env where
  aws_available : Bool
  s3_objects : List (String × Bytes)
  s3_list_fault : String → Option S3Fault
  fs_files : List (String × Bytes)
  fs_dirs : List String

/-- Lookup in a path-keyed file map. -/
def getFile (m : List (String × Bytes)) (k : String) : Option Bytes :=
  (m.find? (fun kv => kv.1 == k)).map (·.2)

/-- Overwrite-or-add in a path-keyed file map. -/
def setFile (m : List (String × Bytes)) (k : String) (v : Bytes) :
    List (String × Bytes) :=
  m.filter (fun kv => kv.1 != k) ++ [(k, v)]

/-- `wr.s3.list_objects(path[, suffix=...])`, modelled as the ideal prefix
listing of the black-box client, with an injected failure mode per path. -/
def s3_list_objects (env : Env) (path : String) (sfx : Option String) :
    Except S3Fault (List String) :=
  match env.s3_list_fault path with
  | some f => .error f
  | none => .ok ((env.s3_objects.map Prod.fst).filter (fun k =>
      path.data.isPrefixOf k.data &&
        (match sfx with
         | none => true
         | some q => q.data.isSuffixOf k.data)))

/-- `ArtifactStore.read_bytes` (lines 182-205).  The S3 path first resolves the
lazy dependency (`_get_awswrangler`, lines 30-45), which raises
`MissingDependencyError` when the import fails. -/
def ArtifactStore.read_bytes (s : ArtifactStore) (env : Env)
    (relative_path : String) : Except Err Bytes :=
  let fp := s.full_path relative_path
  if s.is_s3 then
    if env.aws_available then
      match getFile env.s3_objects fp with
      | some b => .ok b
      | none => .error .notFound
    else .error .missingDependency
  else
    match getFile env.fs_files fp with
    | some b => .ok b
    | none => .error .notFound

/-- `ArtifactStore.write_bytes` (lines 207-228); `_ensure_local_dir` makes the
write succeed for any parent, which the flat file map reflects. -/
def ArtifactStore.write_bytes (s : ArtifactStore) (env : Env)
    (relative_path : String) (data : Bytes) : Except Err Env :=
  let fp := s.full_path relative_path
  if s.is_s3 then
    if env.aws_available then
      .ok { env with s3_objects := setFile env.s3_objects fp data }
    else .error .missingDependency
  else .ok { env with fs_files := setFile env.fs_files fp data }

/-- `os.path.exists`: a regular file or a directory. -/
def fs_path_exists (env : Env) (p : String) : Bool :=
  (getFile env.fs_files p).isSome || env.fs_dirs.contains p

/-- `ArtifactStore.exists` (lines 525-548); named `existsPath` because
`exists` is a Lean keyword.  Only a `ClientError` from the listing call is
caught and turned into `False`; the missing-dependency error is raised before
the `try` block and any other exception escapes it. -/
def ArtifactStore.existsPath (s : ArtifactStore) (env : Env)
    (relative_path : String) : Except Err Bool :=
  let fp := s.full_path relative_path
  if s.is_s3 then
    if env.aws_available then
      match s3_list_objects env fp none with
      | .ok objects => .ok (decide (objects.length > 0))
      | .error .clientError => .ok false
      | .error .otherError => .error .clientFault
    else .error .missingDependency
  else .ok (fs_path_exists env fp)

/-- Result values of `yaml.safe_load`: `null` stands for Python `None`. -/
inductive YamlVal where
  | null
  | mapping (kvs : List (String × String))
  | scalar (s : String)
deriving DecidableEq, Repr

/-- `ArtifactStore.read_yaml` (lines 445-470).  `safe_load` is the black-box
`yaml.safe_load`; its `.error` outcome is a `yaml.YAMLError`, wrapped into
`StorageError`.  Errors of `read_bytes` are not `YAMLError`s and propagate. -/
def ArtifactStore.read_yaml (s : ArtifactStore)
    (safe_load : Bytes → Except String YamlVal)
    (env : Env) (relative_path : String) : Except Err YamlVal :=
  match s.read_bytes env relative_path with
  | .error e => .error e
  | .ok data =>
    match safe_load data with
    | .error _ => .error .storage
    | .ok result => if result = .null then .ok (.mapping []) else .ok result

/-- The argument resolution of `ArtifactStore.copy` (lines 584-585): a full
S3 URI is taken verbatim, anything else goes through `full_path`. -/
def ArtifactStore.resolve_arg (s : ArtifactStore) (p : String) : String :=
  if startswith p "s3://" then p else s.full_path p

/-- `ArtifactStore.copy` (lines 574-600).  `wr.s3.copy_objects` is black-box
modelled as copying the object stored at the source key; the mixed
combinations fall through the two `if` arms with no state change and no
error. -/
def ArtifactStore.copy (s : ArtifactStore) (env : Env) (src dest : String) :
    Except Err Env :=
  let src_full := s.resolve_arg src
  let dest_full := s.resolve_arg dest
  let src_is_s3 := startswith src_full "s3://"
  let dest_is_s3 := startswith dest_full "s3://"
  if src_is_s3 && dest_is_s3 then
    if env.aws_available then
      match getFile env.s3_objects src_full with
      | some b => .ok { env with s3_objects := setFile env.s3_objects dest_full b }
      | none => .ok env
    else .error .missingDependency
  else if !src_is_s3 && !dest_is_s3 then
    match getFile env.fs_files src_full with
    | some b => .ok { env with fs_files := setFile env.fs_files dest_full b }
    | none => .error .notFound
  else .ok env

/-- An environment in which the S3 client library is NOT importable, yet an
object exists at `s3://b/x`. -/
def envNoAws : Env :=
  { aws_available := false, s3_objects := [("s3://b/x", [1])],
    s3_list_fault := fun _ => none, fs_files := [], fs_dirs := [] }

/-- An environment with the client available and one object at `s3://b/x`. -/
def envS3One : Env :=
  { aws_available := true, s3_objects := [("s3://b/x", [1])],
    s3_list_fault := fun _ => none, fs_files := [], fs_dirs := [] }

/-- An environment with one local file, client library absent. -/
def envCopy : Env :=
  { aws_available := false, s3_objects := [], s3_list_fault := fun _ => none,
    fs_files := [("/base/a.txt", [1])], fs_dirs := [] }

/-- An environment holding a zero-length file at `/base/c.yaml`. -/
def envYaml : Env :=
  { aws_available := true, s3_objects := [], s3_list_fault := fun _ => none,
    fs_files := [("/base/c.yaml", [])], fs_dirs := [] }

/-- A `yaml.safe_load` stand-in: the empty document parses to `None`. -/
def safeLoadEmpty : Bytes → Except String YamlVal :=
  fun b => if b = [] then .ok .null else .ok (.scalar "x")

/-- An `s3://bucket/.../name` URI assembled from its slash-separated
segments: scheme part `s3:`, empty part, bucket, middle segments, final
segment. -/
def s3FullOf (bucket : List Char) (mids : List (List Char)) (fname : List Char) :
    String :=
  ⟨List.intercalate ['/'] (([['s', '3', ':'], [], bucket] ++ mids) ++ [fname])⟩

/-- An absolute normalized filesystem path `/seg1/.../name` assembled from its
segments. -/
def fsFullOf (segs : List (List Char)) (fname : List Char) : String :=
  ⟨'/' :: List.intercalate ['/'] (segs ++ [fname])⟩

/-! ### Helper lemmas on characters, strings and lists -/

theorem data_mk (l : List Char) : (String.mk l).data = l := rfl

theorem singleton_prefix_iff {c : Char} {l : List Char} :
    [c] <+: l ↔ l.head? = some c := by
  constructor
  · rintro ⟨t, rfl⟩; rfl
  · intro h
    cases l with
    | nil => simp at h
    | cons a t => simp at h; exact ⟨t, by simp [h]⟩

theorem singleton_suffix_iff {c : Char} {l : List Char} :
    [c] <:+ l ↔ l.getLast? = some c := by
  constructor
  · rintro ⟨t, rfl⟩; simp
  · intro h
    rcases List.eq_nil_or_concat l with rfl | ⟨L, b, rfl⟩
    · simp at h
    · simp only [List.concat_eq_append, List.getLast?_concat, Option.some.injEq] at h
      exact ⟨L, by simp [h]⟩

theorem startswith_slash_iff {s : String} :
    startswith s "/" = true ↔ s.data.head? = some '/' := by
  have hd : ("/" : String).data = ['/'] := rfl
  rw [startswith, List.isPrefixOf_iff_prefix, hd]
  exact singleton_prefix_iff

theorem endswith_slash_iff {s : String} :
    endswith s "/" = true ↔ s.data.getLast? = some '/' := by
  have hd : ("/" : String).data = ['/'] := rfl
  rw [endswith, List.isSuffixOf_iff_suffix, hd]
  exact singleton_suffix_iff

theorem head?_dropWhile_not (p : Char → Bool) (l : List Char) {c : Char}
    (h : (l.dropWhile p).head? = some c) : p c = false := by
  induction l with
  | nil => simp at h
  | cons a t ih =>
    rw [List.dropWhile_cons] at h
    split at h
    · exact ih h
    · next hcond => simp at h; subst h; simpa using hcond

theorem prefix_head?_eq {l₁ l₂ : List Char} (h : l₁ <+: l₂) (hne : l₁ ≠ []) :
    l₂.head? = l₁.head? := by
  obtain ⟨t, rfl⟩ := h
  rw [List.head?_append]
  cases l₁ with
  | nil => exact absurd rfl hne
  | cons a t' => rfl

theorem getLast?_mem {l : List Char} (h : l ≠ []) :
    ∃ c, l.getLast? = some c ∧ c ∈ l := by
  rcases List.eq_nil_or_concat l with rfl | ⟨L, b, rfl⟩
  · exact absurd rfl h
  · exact ⟨b, by simp, by simp⟩

theorem rstripP_prefix_self (p : Char → Bool) (l : List Char) : rstripP p l <+: l := by
  have h := List.dropWhile_suffix (l := l.reverse) p
  have h2 := List.reverse_prefix.mpr h
  simpa [rstripP] using h2

theorem rstripP_getLast?_not (p : Char → Bool) (l : List Char) {c : Char}
    (h : (rstripP p l).getLast? = some c) : p c = false := by
  rw [rstripP, List.getLast?_reverse] at h
  exact head?_dropWhile_not p _ h

theorem rstripP_concat_not {p : Char → Bool} {c : Char} (l : List Char)
    (h : p c = false) : rstripP p (l ++ [c]) = l ++ [c] := by
  simp [rstripP, List.dropWhile_cons, h]

theorem rstripP_concat_pos {p : Char → Bool} {c : Char} (l : List Char)
    (h : p c = true) : rstripP p (l ++ [c]) = rstripP p l := by
  simp [rstripP, List.dropWhile_cons, h]

theorem rstripP_eq_self {p : Char → Bool} {l : List Char} {c : Char}
    (hl : l.getLast? = some c) (h : p c = false) : rstripP p l = l := by
  rcases List.eq_nil_or_concat l with rfl | ⟨L, b, rfl⟩
  · simp at hl
  · rw [List.concat_eq_append] at hl ⊢
    simp only [List.getLast?_concat, Option.some.injEq] at hl
    subst hl
    exact rstripP_concat_not L h

theorem lstripP_eq_self {p : Char → Bool} {l : List Char} {c : Char}
    (hl : l.head? = some c) (h : p c = false) : lstripP p l = l := by
  cases l with
  | nil => simp at hl
  | cons a t =>
    simp only [List.head?_cons, Option.some.injEq] at hl
    subst hl
    simp [lstripP, List.dropWhile_cons, h]

theorem takeWhile_middle {p : Char → Bool} {c : Char} (l₁ l₂ : List Char)
    (h₁ : ∀ x ∈ l₁, p x = true) (hc : p c = false) :
    (l₁ ++ c :: l₂).takeWhile p = l₁ := by
  induction l₁ with
  | nil => simp [List.takeWhile_cons, hc]
  | cons a t ih =>
    rw [List.cons_append, List.takeWhile_cons, if_pos (h₁ a (by simp))]
    rw [ih (fun x hx => h₁ x (by simp [hx]))]

theorem dropWhile_middle {p : Char → Bool} {c : Char} (l₁ l₂ : List Char)
    (h₁ : ∀ x ∈ l₁, p x = true) (hc : p c = false) :
    (l₁ ++ c :: l₂).dropWhile p = c :: l₂ := by
  induction l₁ with
  | nil => simp [List.dropWhile_cons, hc]
  | cons a t ih =>
    rw [List.cons_append, List.dropWhile_cons, if_pos (h₁ a (by simp))]
    exact ih (fun x hx => h₁ x (by simp [hx]))

theorem intercalate_one (sep x : List Char) : List.intercalate sep [x] = x := by
  simp [List.intercalate, List.intersperse]

theorem intercalate_two_cons (sep a b : List Char) (t : List (List Char)) :
    List.intercalate sep (a :: b :: t) = a ++ sep ++ List.intercalate sep (b :: t) := by
  simp [List.intercalate, List.intersperse, List.append_assoc]

theorem intercalate_concat (sep x : List Char) (xs : List (List Char)) (h : xs ≠ []) :
    List.intercalate sep (xs ++ [x]) = List.intercalate sep xs ++ sep ++ x := by
  induction xs with
  | nil => exact absurd rfl h
  | cons a t ih =>
    cases t with
    | nil => simp [intercalate_two_cons, intercalate_one]
    | cons b t' =>
      have hb : (b :: t') ++ [x] = b :: (t' ++ [x]) := rfl
      rw [List.cons_append, hb, intercalate_two_cons, ← hb, ih (by simp),
        intercalate_two_cons]
      simp [List.append_assoc]

theorem intercalate_getLast? (sep : List Char) (q : List (List Char)) (z : List Char)
    (hz : z ≠ []) : (List.intercalate sep (q ++ [z])).getLast? = z.getLast? := by
  cases q with
  | nil => simp [intercalate_one]
  | cons a t =>
    rw [intercalate_concat sep z (a :: t) (by simp), List.getLast?_append]
    rcases List.eq_nil_or_concat z with rfl | ⟨L, b, rfl⟩
    · exact absurd rfl hz
    · simp

theorem intercalate_head_cons (sep a : List Char) (t : List (List Char)) :
    ∃ r, List.intercalate sep (a :: t) = a ++ r := by
  cases t with
  | nil => exact ⟨[], by simp [intercalate_one]⟩
  | cons b t' =>
    exact ⟨sep ++ List.intercalate sep (b :: t'),
      by rw [intercalate_two_cons]; simp [List.append_assoc]⟩

theorem initialSlashCount_pos {p : String} (h : p.data.head? = some '/') :
    0 < initialSlashCount p := by
  rw [initialSlashCount]
  split
  · omega
  · rw [if_pos (startswith_slash_iff.mpr h)]
    omega

theorem normpath_head {p : String} (h : p.data.head? = some '/') :
    (normpath p).data.head? = some '/' := by
  have hne : p ≠ "" := by
    intro h0; subst h0; simp at h
  rw [normpath, if_neg hne]
  have hk := initialSlashCount_pos h
  obtain ⟨m, hm⟩ : ∃ m, initialSlashCount p = m + 1 :=
    ⟨initialSlashCount p - 1, by omega⟩
  show (if List.replicate (initialSlashCount p) '/' ++
      List.intercalate ['/'] ((p.data.splitOn '/').foldl
        (normStep (decide (0 < initialSlashCount p))) []) = []
    then ("." : String)
    else ⟨List.replicate (initialSlashCount p) '/' ++
      List.intercalate ['/'] ((p.data.splitOn '/').foldl
        (normStep (decide (0 < initialSlashCount p))) [])⟩).data.head? = some '/'
  rw [hm, List.replicate_succ]
  rw [if_neg (by simp)]
  rfl

theorem joinPosix_head {a b : String} (ha : a.data.head? = some '/')
    (hb : startswith b "/" = false) : (joinPosix a b).data.head? = some '/' := by
  rw [joinPosix, if_neg (by simp [hb])]
  split
  · rw [String.data_append, List.head?_append, ha]; rfl
  · rw [String.data_append, String.data_append, List.head?_append,
      List.head?_append, ha]; rfl

theorem abspath_head {cwd p : String} (hc : cwd.data.head? = some '/')
    (hp : isabs p = false) : (abspath cwd p).data.head? = some '/' := by
  rw [abspath, if_neg (by simp [hp])]
  exact normpath_head (joinPosix_head hc hp)

theorem startswith_mk_lstrip_slash (l : List Char) :
    startswith ⟨lstripP isSlash l⟩ "/" = false := by
  rw [Bool.eq_false_iff]
  intro hc
  have h := startswith_slash_iff.mp hc
  rw [data_mk, lstripP] at h
  have h2 := head?_dropWhile_not isSlash l h
  simp [isSlash] at h2

/-! ### Claim C1 -/

/-- Claim C1 fails as stated: `full_path` strips ALL leading separators, not
at most one.  At base `/b` and relative path `//x` the code yields `/b/x`,
while stripping at most one separator and joining with the native separator
would yield `/b//x`. -/
theorem claim_C1_counterexample :
    (ArtifactStore.init "/" "/b").full_path "//x" = "/b/x" ∧
    (ArtifactStore.init "/" "/b").base_path ++ "/" ++ "/x" = "/b//x" ∧
    ("/b/x" : String) ≠ "/b//x" :=
  ⟨rfl, rfl, by decide⟩

/-- Claim C1, amended: for every non-empty relative path, `full_path` strips
ALL leading `/` separators and concatenates the remainder to `base_path` with
the separator `/` (for both backend kinds, on the POSIX host); for the empty
relative path it returns `base_path` unchanged.  Stated for stores whose base
path is non-empty without trailing separator, which construction establishes
for all non-degenerate inputs. -/
theorem claim_C1 (s : ArtifactStore) (rel : String)
    (hb : s.base_path ≠ "") (hb2 : endswith s.base_path "/" = false) :
    s.full_path "" = s.base_path ∧
    (rel ≠ "" →
      s.full_path rel = s.base_path ++ "/" ++ ⟨lstripP isSlash rel.data⟩) := by
  constructor
  · simp [ArtifactStore.full_path]
  · intro hrel
    rw [ArtifactStore.full_path, if_neg hrel]
    by_cases h3 : s.is_s3
    · rw [if_pos h3]
    · rw [if_neg h3, joinPosix,
        if_neg (by simp [startswith_mk_lstrip_slash rel.data]),
        if_neg (by rintro (h | h); exacts [hb h, absurd h (by simp [hb2])])]

/-- Witness for the amended C1 at base path `/data` and relative path `//x`. -/
theorem claim_C1_witness :
    ((ArtifactStore.init "/" "/data").base_path ≠ "" ∧
      endswith (ArtifactStore.init "/" "/data").base_path "/" = false) ∧
    (ArtifactStore.init "/" "/data").full_path "" =
      (ArtifactStore.init "/" "/data").base_path ∧
    (ArtifactStore.init "/" "/data").full_path "//x" = "/data/x" := by
  have h := claim_C1 (ArtifactStore.init "/" "/data") "//x"
    (by decide) (by decide)
  exact ⟨⟨by decide, by decide⟩, h.1, h.2 (by decide)⟩

/-! ### Claim C2 -/

/-- Claim C2 fails as stated for the empty relative path: `full_path ""`
returns the base path unchanged, while `full_path "/"` appends a trailing
separator. -/
theorem claim_C2_counterexample :
    (ArtifactStore.init "/" "s3://b").full_path "" = "s3://b" ∧
    (ArtifactStore.init "/" "s3://b").full_path ("/" ++ "") = "s3://b/" ∧
    ("s3://b" : String) ≠ "s3://b/" :=
  ⟨rfl, rfl, by decide⟩

/-- Claim C2, amended: for every NON-EMPTY relative path `p` and both backend
kinds, `full_path p = full_path ("/" ++ p)`.  (For `p = ""` the two sides
differ, as the counterexample shows.) -/
theorem claim_C2 (s : ArtifactStore) (p : String) (hp : p ≠ "") :
    s.full_path p = s.full_path ("/" ++ p) := by
  have hdata : ("/" ++ p).data = '/' :: p.data := by
    rw [String.data_append]; rfl
  have hne : ("/" ++ p) ≠ "" := by
    intro h0
    have h1 := congrArg String.data h0
    rw [hdata] at h1
    simp at h1
  have hL : lstripP isSlash ("/" ++ p).data = lstripP isSlash p.data := by
    rw [hdata, lstripP, lstripP, List.dropWhile_cons, if_pos (by rfl)]
  rw [ArtifactStore.full_path, ArtifactStore.full_path, if_neg hp, if_neg hne, hL]

/-- Witness for the amended C2 at `p = "x/y"` on an S3 store. -/
theorem claim_C2_witness :
    (ArtifactStore.init "/" "s3://b").full_path "x/y" =
      (ArtifactStore.init "/" "s3://b").full_path ("/" ++ "x/y") :=
  claim_C2 (ArtifactStore.init "/" "s3://b") "x/y" (by decide)

/-! ### Claim C3 -/

/-- Claim C3 fails as stated: the absolute input `"/"` (any absolute path
consisting only of separators) is classified as Filesystem but normalizes to
the EMPTY base path, which is not an absolute path. -/
theorem claim_C3_counterexample :
    (ArtifactStore.init "/home" "/").is_s3 = false ∧
    (ArtifactStore.init "/home" "/").base_path = "" ∧
    isabs "" = false :=
  ⟨rfl, rfl, rfl⟩

/-- Claim C3, amended: for every input path (`cwd` being the absolute working
directory), the constructed Store satisfies: if the backend kind is
ObjectStore then `base_path` has no trailing `/`; if the kind is Filesystem
then `base_path` is absolute — except that an absolute input consisting only
of `/` and `\` characters yields the empty base path.  The embedding is an
immutable structure, so neither field changes after construction. -/
theorem claim_C3 (cwd path : String) (hcwd : cwd.data.head? = some '/') :
    ((ArtifactStore.init cwd path).is_s3 = true →
      endswith (ArtifactStore.init cwd path).base_path "/" = false) ∧
    ((ArtifactStore.init cwd path).is_s3 = false →
      (isabs path = false ∨ rstripP isSlashOrBackslash path.data ≠ []) →
      isabs (ArtifactStore.init cwd path).base_path = true) := by
  rw [ArtifactStore.init]
  by_cases h1 : startswith path "s3://"
  · rw [if_pos h1]
    refine ⟨fun _ => ?_, fun hf => by simp at hf⟩
    rw [Bool.eq_false_iff]
    intro hc
    have h := endswith_slash_iff.mp hc
    rw [data_mk] at h
    have h2 := rstripP_getLast?_not isSlash path.data h
    simp [isSlash] at h2
  · rw [if_neg h1]
    by_cases h2 : isabs path
    · rw [if_pos h2]
      refine ⟨fun ht => by simp at ht, fun _ hd => ?_⟩
      rcases hd with hd | hd
      · rw [h2] at hd; cases hd
      · have hph : path.data.head? = some '/' := startswith_slash_iff.mp h2
        have hh := prefix_head?_eq (rstripP_prefix_self isSlashOrBackslash path.data) hd
        rw [isabs]
        apply startswith_slash_iff.mpr
        rw [data_mk, ← hh]
        exact hph
    · rw [if_neg h2]
      refine ⟨fun ht => by simp at ht, fun _ _ => ?_⟩
      have h2f : isabs path = false := by simpa using h2
      rw [isabs]
      apply startswith_slash_iff.mpr
      exact abspath_head hcwd h2f

/-- Witness for the amended C3: an S3 base with trailing slashes, a relative
filesystem base, and an absolute filesystem base with trailing slashes. -/
theorem claim_C3_witness :
    endswith (ArtifactStore.init "/home" "s3://b/p///").base_path "/" = false ∧
    isabs (ArtifactStore.init "/home" "out").base_path = true ∧
    isabs (ArtifactStore.init "/home" "/data//").base_path = true := by
  refine ⟨(claim_C3 "/home" "s3://b/p///" (by decide)).1 rfl,
    (claim_C3 "/home" "out" (by decide)).2 rfl (Or.inl (by decide)),
    (claim_C3 "/home" "/data//" (by decide)).2 rfl (Or.inr (by decide))⟩

/-! ### Claim C4 -/

/-- Claim C4: construction from an `s3://` path is total in the embedding
(the `__init__` body contains no raising operation and never touches the
client library), classifies the Store as object-store-backed, and when the
client library is absent, the first attempted I/O operation (`read_bytes` /
`write_bytes`) fails with `MissingDependencyError`. -/
theorem claim_C4 (cwd path : String) (h : startswith path "s3://" = true) :
    (ArtifactStore.init cwd path).is_s3 = true ∧
    (∀ (env : Env) (rel : String) (data : Bytes), env.aws_available = false →
      (ArtifactStore.init cwd path).read_bytes env rel =
        .error .missingDependency ∧
      (ArtifactStore.init cwd path).write_bytes env rel data =
        .error .missingDependency) := by
  have hs : (ArtifactStore.init cwd path).is_s3 = true := by
    rw [ArtifactStore.init, if_pos h]
  refine ⟨hs, fun env rel data henv => ⟨?_, ?_⟩⟩
  · simp [ArtifactStore.read_bytes, hs, henv]
  · simp [ArtifactStore.write_bytes, hs, henv]

/-- Witness for C4 at `s3://b` with the client library absent. -/
theorem claim_C4_witness :
    (ArtifactStore.init "/" "s3://b").is_s3 = true ∧
    (ArtifactStore.init "/" "s3://b").read_bytes envNoAws "x" =
      .error .missingDependency ∧
    (ArtifactStore.init "/" "s3://b").write_bytes envNoAws "x" [0] =
      .error .missingDependency := by
  have h := claim_C4 "/" "s3://b" (by decide)
  exact ⟨h.1, (h.2 envNoAws "x" [0] rfl).1, (h.2 envNoAws "x" [0] rfl).2⟩

/-! ### Claim C5 -/

/-- Claim C5 fails as stated: `exists` CAN raise.  With the client library
absent, `_get_awswrangler` raises `MissingDependencyError` before the `try`
block ever runs — even though an object exists at the checked key
(`envNoAws` holds `s3://b/x`). -/
theorem claim_C5_counterexample :
    (ArtifactStore.init "/" "s3://b").existsPath envNoAws "x" =
      .error .missingDependency :=
  rfl

/-- Claim C5, amended: for every object-store Store and relative path, when
the client library is available: if the listing call succeeds, `exists`
returns `true` iff at least one match is returned; a `ClientError` from the
listing yields `false`; any other exception propagates (and a missing client
library raises `MissingDependencyError`, per the counterexample). -/
theorem claim_C5 (env : Env) (s : ArtifactStore) (rel : String)
    (h1 : s.is_s3 = true) (h2 : env.aws_available = true) :
    (∀ objs, s3_list_objects env (s.full_path rel) none = .ok objs →
      s.existsPath env rel = .ok (decide (objs.length > 0))) ∧
    (s3_list_objects env (s.full_path rel) none = .error .clientError →
      s.existsPath env rel = .ok false) ∧
    (s3_list_objects env (s.full_path rel) none = .error .otherError →
      s.existsPath env rel = .error .clientFault) := by
  refine ⟨fun objs h => ?_, fun h => ?_, fun h => ?_⟩ <;>
    simp [ArtifactStore.existsPath, h1, h2, h]

/-- Witness for the amended C5: an existing key answers `true`, a missing key
answers `false`. -/
theorem claim_C5_witness :
    (ArtifactStore.init "/" "s3://b").existsPath envS3One "x" = .ok true ∧
    (ArtifactStore.init "/" "s3://b").existsPath envS3One "nope" = .ok false :=
  ⟨(claim_C5 envS3One (ArtifactStore.init "/" "s3://b") "x" rfl rfl).1
      ["s3://b/x"] rfl,
    (claim_C5 envS3One (ArtifactStore.init "/" "s3://b") "nope" rfl rfl).1
      [] rfl⟩

/-! ### Claim C6 -/

/-- Claim C8: whenever exactly one of the two resolved copy endpoints is
S3-addressed, `copy` falls through both implemented branches: it returns
without error and the environment (both backends' stored state) is completely
unchanged. -/
theorem claim_C8 (env : Env) (s : ArtifactStore) (src dest : String)
    (h : startswith (s.resolve_arg src) "s3://" ≠
      startswith (s.resolve_arg dest) "s3://") :
    s.copy env src dest = .ok env := by
  cases ha : startswith (s.resolve_arg src) "s3://" <;>
    cases hb : startswith (s.resolve_arg dest) "s3://" <;>
    first
      | exact absurd (ha.trans hb.symm) h
      | simp [ArtifactStore.copy, ha, hb]

/-- Witness for C8: a filesystem-based Store copying a local file to a full
S3 URI does nothing and succeeds, with the environment unchanged. -/
theorem claim_C8_witness :
    (ArtifactStore.init "/" "/base").copy envCopy "a.txt" "s3://b/x" =
      .ok envCopy :=
  claim_C8 envCopy (ArtifactStore.init "/" "/base") "a.txt" "s3://b/x"
    (by decide)

/-! ### Claim C9 -/

/-- Claim C9: when the stored bytes parse to YAML `None` (as an empty or
zero-length document does under `yaml.safe_load`), `read_yaml` returns the
empty mapping, not the null value — so an empty file is indistinguishable
from a file holding an empty mapping. -/
theorem claim_C9 (safe_load : Bytes → Except String YamlVal) (env : Env)
    (s : ArtifactStore) (rel : String) (content : Bytes)
    (h1 : s.read_bytes env rel = .ok content)
    (h2 : safe_load content = .ok .null) :
    s.read_yaml safe_load env rel = .ok (.mapping []) ∧
    YamlVal.mapping [] ≠ YamlVal.null := by
  refine ⟨?_, by simp⟩
  simp [ArtifactStore.read_yaml, h1, h2]

/-- Witness for C9: a zero-length file at `/base/c.yaml` reads as the empty
mapping. -/
theorem claim_C9_witness :
    (ArtifactStore.init "/" "/base").read_yaml safeLoadEmpty envYaml "c.yaml" =
      .ok (.mapping []) :=
  (claim_C9 safeLoadEmpty envYaml (ArtifactStore.init "/" "/base") "c.yaml" []
    rfl rfl).1

/-! ### Helper lemmas for the split/join round trip -/

theorem mk_ne_empty {l : List Char} (h : l ≠ []) : (⟨l⟩ : String) ≠ "" := by
  intro h0
  exact h (by simpa using congrArg String.data h0)

theorem startswith_mk_not_slash {l : List Char} {c : Char}
    (hl : l.head? = some c) (hc : c ≠ '/') : startswith ⟨l⟩ "/" = false := by
  rw [Bool.eq_false_iff]
  intro hcon
  have h := startswith_slash_iff.mp hcon
  rw [data_mk, hl] at h
  exact hc (by simpa using h)

theorem lstrip_no_slash {l : List Char} (h : '/' ∉ l) :
    lstripP isSlash l = l := by
  cases l with
  | nil => rfl
  | cons a t =>
    have ha : a ≠ '/' := fun e => h (by simp [e])
    exact lstripP_eq_self (c := a) rfl (by simp [isSlash, ha])

theorem intercalate_scheme (a : List Char) (t : List (List Char)) :
    List.intercalate ['/'] (['s', '3', ':'] :: [] :: a :: t) =
      ['s', '3', ':', '/', '/'] ++ List.intercalate ['/'] (a :: t) := by
  rw [intercalate_two_cons, intercalate_two_cons]
  simp

theorem exists_last_decomp (a : List Char) (mids : List (List Char)) :
    ∃ xs z, [a] ++ mids = xs ++ [z] ∧ (z = a ∨ z ∈ mids) := by
  rcases List.eq_nil_or_concat mids with rfl | ⟨L, m, rfl⟩
  · exact ⟨[], a, by simp, Or.inl rfl⟩
  · exact ⟨[a] ++ L, m, by simp [List.concat_eq_append], Or.inr (by simp)⟩

theorem rstripP_intercalate_clean (p : Char → Bool) (xs : List (List Char))
    (z : List Char) (hz : z ≠ []) (hcz : ∀ c ∈ z, p c = false) :
    rstripP p (List.intercalate ['/'] (xs ++ [z])) =
      List.intercalate ['/'] (xs ++ [z]) := by
  obtain ⟨c, hlast, hmem⟩ := getLast?_mem hz
  have hl : (List.intercalate ['/'] (xs ++ [z])).getLast? = some c := by
    rw [intercalate_getLast? ['/'] xs z hz]; exact hlast
  exact rstripP_eq_self hl (hcz c hmem)

theorem splitPosix_parts (hd tl : List Char) (htl : '/' ∉ tl)
    (hany : hd.any (· != '/') = true) :
    splitPosix ⟨hd ++ '/' :: tl⟩ = (⟨rstripP isSlash hd⟩, ⟨tl⟩) := by
  have h1 : (⟨hd ++ '/' :: tl⟩ : String).data.reverse =
      tl.reverse ++ '/' :: hd.reverse := by
    rw [data_mk]
    simp
  have hfa : ∀ x ∈ tl.reverse, (x != '/') = true := by
    intro x hx
    have hxn : x ≠ '/' := fun e => htl (e ▸ List.mem_reverse.mp hx)
    simp [hxn]
  have htk := takeWhile_middle (p := (· != '/')) (c := '/') tl.reverse hd.reverse
    hfa (by simp)
  have hdr := dropWhile_middle (p := (· != '/')) (c := '/') tl.reverse hd.reverse
    hfa (by simp)
  rw [splitPosix]
  simp only [h1, htk, hdr, List.reverse_reverse, List.reverse_cons,
    List.reverse_append]
  rw [if_pos ⟨by simp, by simp [List.any_append, hany]⟩]
  rw [rstripP_concat_pos hd (by simp [isSlash])]

/-! ### Claim C10 -/

/-- Claim C10 fails as stated: for a file directly under the filesystem root,
`from_file_path` computes directory part `/`, whose construction-time
normalization strips the separator down to the EMPTY base path, so the
re-join loses the leading `/`:  `from_file_path("/b")` yields
`full_path("b") = "b" ≠ "/b"`. -/
theorem claim_C10_counterexample :
    (ArtifactStore.from_file_path "/" "/b").2 = "b" ∧
    (ArtifactStore.from_file_path "/" "/b").1.full_path "b" = "b" ∧
    ("b" : String) ≠ "/b" :=
  ⟨rfl, rfl, by decide⟩

/-- Claim C10, amended: the split/join round trip
`store.full_path(filename) = full` holds (a) for every `s3://` URI with at
least one `/` after the bucket and no empty segments, and (b) for every
absolute normalized filesystem path with a non-empty final segment, provided
its directory part is not the bare root `/` (the counterexample) and its
directory segments contain no backslash (which `rstrip("/\\")` would also
strip). -/
theorem claim_C10 :
    (∀ (cwd : String) (bucket fname : List Char) (mids : List (List Char)),
      bucket ≠ [] → '/' ∉ bucket →
      (∀ l ∈ mids, l ≠ [] ∧ '/' ∉ l) →
      fname ≠ [] → '/' ∉ fname →
      (ArtifactStore.from_file_path cwd (s3FullOf bucket mids fname)).1.full_path
          (ArtifactStore.from_file_path cwd (s3FullOf bucket mids fname)).2 =
        s3FullOf bucket mids fname) ∧
    (∀ (cwd : String) (segs : List (List Char)) (fname : List Char),
      segs ≠ [] → (∀ l ∈ segs, l ≠ [] ∧ '/' ∉ l ∧ '\\' ∉ l) →
      fname ≠ [] → '/' ∉ fname →
      (ArtifactStore.from_file_path cwd (fsFullOf segs fname)).1.full_path
          (ArtifactStore.from_file_path cwd (fsFullOf segs fname)).2 =
        fsFullOf segs fname) := by
  constructor
  · intro cwd bucket fname mids hb hbs hm hf hfs
    have hfulld : (s3FullOf bucket mids fname).data =
        List.intercalate ['/'] (([['s', '3', ':'], [], bucket] ++ mids) ++ [fname]) :=
      rfl
    have hnosl : ∀ l ∈ ([['s', '3', ':'], [], bucket] ++ mids) ++ [fname],
        '/' ∉ l := by
      intro l hl
      simp only [List.mem_append, List.mem_cons, List.not_mem_nil, or_false,
        List.mem_singleton] at hl
      rcases hl with ((rfl | rfl | rfl) | hl) | rfl
      · decide
      · simp
      · exact hbs
      · exact (hm l hl).2
      · exact hfs
    have hsplit : List.splitOn '/' (s3FullOf bucket mids fname).data =
        ([['s', '3', ':'], [], bucket] ++ mids) ++ [fname] := by
      rw [hfulld]
      exact List.splitOn_intercalate _ '/' hnosl (by simp)
    have hshape : ([['s', '3', ':'], [], bucket] ++ mids) ++ [fname] =
        ['s', '3', ':'] :: [] :: bucket :: (mids ++ [fname]) := by simp
    have hsw : startswith (s3FullOf bucket mids fname) "s3://" = true := by
      rw [startswith, hfulld, hshape, intercalate_scheme,
        List.isPrefixOf_iff_prefix]
      exact ⟨_, rfl⟩
    have hswb : startswith
        (⟨List.intercalate ['/'] ([['s', '3', ':'], [], bucket] ++ mids)⟩ : String)
        "s3://" = true := by
      rw [startswith, data_mk,
        show [['s', '3', ':'], [], bucket] ++ mids =
          ['s', '3', ':'] :: [] :: bucket :: mids from by simp,
        intercalate_scheme, List.isPrefixOf_iff_prefix]
      exact ⟨_, rfl⟩
    obtain ⟨xs, z, hdez, hzor⟩ := exists_last_decomp bucket mids
    have hz : z ≠ [] ∧ '/' ∉ z := by
      rcases hzor with rfl | hzin
      · exact ⟨hb, hbs⟩
      · exact ⟨(hm z hzin).1, (hm z hzin).2⟩
    have hPdez : [['s', '3', ':'], [], bucket] ++ mids =
        ([['s', '3', ':'], []] ++ xs) ++ [z] := by
      have h0 : [['s', '3', ':'], [], bucket] ++ mids =
          [['s', '3', ':'], []] ++ ([bucket] ++ mids) := by simp
      rw [h0, hdez, ← List.append_assoc]
    have hrs : rstripP isSlash
        (List.intercalate ['/'] ([['s', '3', ':'], [], bucket] ++ mids)) =
        List.intercalate ['/'] ([['s', '3', ':'], [], bucket] ++ mids) := by
      rw [hPdez]
      refine rstripP_intercalate_clean isSlash _ z hz.1 ?_
      intro c hc
      have hcne : c ≠ '/' := fun e => hz.2 (e ▸ hc)
      simp [isSlash, hcne]
    simp only [ArtifactStore.from_file_path, hsw, if_true, hsplit,
      List.dropLast_concat, List.getLast?_concat, Option.getD_some]
    simp only [ArtifactStore.init, hswb, if_true, data_mk, hrs]
    rw [ArtifactStore.full_path, if_neg (mk_ne_empty hf), if_pos rfl]
    apply String.ext
    rw [String.data_append, String.data_append, data_mk, data_mk,
      show ((⟨fname⟩ : String)).data = fname from rfl, lstrip_no_slash hfs,
      hfulld, intercalate_concat ['/'] fname _ (by simp),
      show ("/" : String).data = ['/'] from rfl]
  · intro cwd segs fname hsegs hsp hf hfs
    obtain ⟨s₀, segtl, rfl⟩ : ∃ s₀ segtl, segs = s₀ :: segtl := by
      cases segs with
      | nil => exact absurd rfl hsegs
      | cons a t => exact ⟨a, t, rfl⟩
    obtain ⟨c₀, s₀t, hs₀⟩ : ∃ c hd, s₀ = c :: hd := by
      have h0 := (hsp s₀ (by simp)).1
      cases s₀ with
      | nil => exact absurd rfl h0
      | cons a t => exact ⟨a, t, rfl⟩
    have hc₀mem : c₀ ∈ s₀ := by rw [hs₀]; simp
    have hc₀ : c₀ ≠ '/' := fun e => (hsp s₀ (by simp)).2.1 (e ▸ hc₀mem)
    obtain ⟨r, hAr⟩ := intercalate_head_cons ['/'] s₀ segtl
    have hc₀A : c₀ ∈ List.intercalate ['/'] (s₀ :: segtl) := by
      rw [hAr]; exact List.mem_append.mpr (Or.inl hc₀mem)
    obtain ⟨xs, z, hdez, hzor⟩ := exists_last_decomp s₀ segtl
    have hz : z ≠ [] ∧ '/' ∉ z ∧ '\\' ∉ z := by
      rcases hzor with rfl | hzin
      · exact hsp z (by simp)
      · exact hsp z (by simp [hzin])
    obtain ⟨cz, hczlast, hczmem⟩ := getLast?_mem hz.1
    have hAlast : (List.intercalate ['/'] (s₀ :: segtl)).getLast? = some cz := by
      rw [show s₀ :: segtl = [s₀] ++ segtl from rfl, hdez,
        intercalate_getLast? ['/'] xs z hz.1]
      exact hczlast
    have hczs : cz ≠ '/' := fun e => hz.2.1 (e ▸ hczmem)
    have hczb : cz ≠ '\\' := fun e => hz.2.2 (e ▸ hczmem)
    have hfull_eq : fsFullOf (s₀ :: segtl) fname =
        ⟨('/' :: List.intercalate ['/'] (s₀ :: segtl)) ++ '/' :: fname⟩ := by
      apply String.ext
      rw [show (fsFullOf (s₀ :: segtl) fname).data =
        '/' :: List.intercalate ['/'] ((s₀ :: segtl) ++ [fname]) from rfl]
      rw [intercalate_concat ['/'] fname (s₀ :: segtl) (by simp), data_mk]
      simp
    have hconsA :
        ('/' :: List.intercalate ['/'] (s₀ :: segtl)).getLast? = some cz := by
      rw [show ('/' :: List.intercalate ['/'] (s₀ :: segtl)) =
          ['/'] ++ List.intercalate ['/'] (s₀ :: segtl) from rfl,
        List.getLast?_append, hAlast]
      rfl
    have hany2 :
        (('/' :: List.intercalate ['/'] (s₀ :: segtl)).any (· != '/')) = true := by
      rw [List.any_eq_true]
      exact ⟨c₀, by simp [hc₀A], by simp [hc₀]⟩
    have hsplit2 : splitPosix
        ⟨('/' :: List.intercalate ['/'] (s₀ :: segtl)) ++ '/' :: fname⟩ =
        (⟨'/' :: List.intercalate ['/'] (s₀ :: segtl)⟩, ⟨fname⟩) := by
      rw [splitPosix_parts _ fname hfs hany2,
        rstripP_eq_self hconsA (by simp [isSlash, hczs])]
    have hsc : ('s' == '/') = false := by decide
    have hnots3 : startswith
        (⟨('/' :: List.intercalate ['/'] (s₀ :: segtl)) ++ '/' :: fname⟩ : String)
        "s3://" = false := by
      rw [startswith,
        show ("s3://" : String).data = 's' :: '3' :: ':' :: '/' :: '/' :: [] from
          rfl, data_mk]
      rw [show ('/' :: List.intercalate ['/'] (s₀ :: segtl)) ++ '/' :: fname =
        '/' :: (List.intercalate ['/'] (s₀ :: segtl) ++ '/' :: fname) from rfl]
      simp [List.isPrefixOf, hsc]
    have hdir_ne : (⟨'/' :: List.intercalate ['/'] (s₀ :: segtl)⟩ : String) ≠ "" :=
      mk_ne_empty (by simp)
    have hnots3b : startswith
        (⟨'/' :: List.intercalate ['/'] (s₀ :: segtl)⟩ : String) "s3://" = false := by
      rw [startswith,
        show ("s3://" : String).data = 's' :: '3' :: ':' :: '/' :: '/' :: [] from
          rfl, data_mk]
      simp [List.isPrefixOf, hsc]
    have habs : isabs (⟨'/' :: List.intercalate ['/'] (s₀ :: segtl)⟩ : String)
        = true :=
      startswith_slash_iff.mpr rfl
    have hrsb : rstripP isSlashOrBackslash
        ('/' :: List.intercalate ['/'] (s₀ :: segtl)) =
        '/' :: List.intercalate ['/'] (s₀ :: segtl) :=
      rstripP_eq_self hconsA (by simp [isSlashOrBackslash, hczs, hczb])
    have hends : endswith
        (⟨'/' :: List.intercalate ['/'] (s₀ :: segtl)⟩ : String) "/" = false := by
      rw [Bool.eq_false_iff]
      intro hcon
      have h0 := endswith_slash_iff.mp hcon
      rw [data_mk, hconsA] at h0
      exact hczs (by simpa using h0)
    rw [hfull_eq]
    simp only [ArtifactStore.from_file_path, hnots3, Bool.false_eq_true,
      if_false]
    have hdir : dirname
        ⟨('/' :: List.intercalate ['/'] (s₀ :: segtl)) ++ '/' :: fname⟩ =
        ⟨'/' :: List.intercalate ['/'] (s₀ :: segtl)⟩ := by
      rw [dirname, hsplit2]
    have hbase : basename
        ⟨('/' :: List.intercalate ['/'] (s₀ :: segtl)) ++ '/' :: fname⟩ =
        ⟨fname⟩ := by
      rw [basename, hsplit2]
    rw [hdir, hbase, if_neg hdir_ne]
    simp only [ArtifactStore.init, hnots3b, Bool.false_eq_true, if_false,
      habs, if_true, data_mk, hrsb]
    rw [ArtifactStore.full_path, if_neg (mk_ne_empty hf), if_neg (by simp),
      joinPosix, if_neg (by simp [startswith_mk_lstrip_slash fname]),
      if_neg (by rintro (h | h); exacts [hdir_ne h, absurd h (by simp [hends])])]
    apply String.ext
    rw [String.data_append, String.data_append, data_mk, data_mk,
      show ((⟨fname⟩ : String)).data = fname from rfl, lstrip_no_slash hfs,
      show ("/" : String).data = ['/'] from rfl]
    simp

/-- Witness for the amended C10: the round trip at `s3://b/p/f` and at
`/a/f`. -/
theorem claim_C10_witness :
    (ArtifactStore.from_file_path "/" "s3://b/p/f").1.full_path
      (ArtifactStore.from_file_path "/" "s3://b/p/f").2 = "s3://b/p/f" ∧
    (ArtifactStore.from_file_path "/" "/a/f").1.full_path
      (ArtifactStore.from_file_path "/" "/a/f").2 = "/a/f" :=
  ⟨claim_C10.1 "/" ['b'] ['f'] [['p']] (by decide) (by decide) (by decide)
      (by decide) (by decide),
    claim_C10.2 "/" [['a']] ['f'] (by decide) (by decide) (by decide)
      (by decide)⟩
